import Mathlib

/-!
Verification development for the go.nut NUT (Network UPS Tools) client.

The Go source is shallowly embedded: strings are Lean `String`s, the Go
standard-library helpers used by the client (`strings.Split`,
`strings.ReplaceAll`, `strconv.ParseInt`, ...) are modelled as executable
functions below, the network is modelled as an environment mapping each
command line to the list of response lines the server would stream back,
and the connection pool is modelled as a state machine whose transitions
are the (sequentially executed, mutex-serialised) bodies of `Pool.Get`,
`Pool.Put` and `Pool.Close`.
-/

namespace GoNut

/-! ### Models of the Go standard-library string primitives used by the client -/

/-- Boolean prefix test on character lists (model of `strings.HasPrefix`). -/
def listIsPre : List Char → List Char → Bool
  | [], _ => true
  | _ :: _, [] => false
  | a :: as, b :: bs => a == b && listIsPre as bs

/-- Model of Go `strings.HasPrefix s pre`. -/
def goStartsWith (s pre : String) : Bool := listIsPre pre.toList s.toList

/-- Model of Go `strings.TrimPrefix s pre`. -/
def goTrimPre (s pre : String) : String :=
  if goStartsWith s pre then String.mk (s.toList.drop pre.toList.length) else s

/-- Model of Go `strings.HasSuffix s suf`. -/
def goEndsWith (s suf : String) : Bool := listIsPre suf.toList.reverse s.toList.reverse

/-- Model of Go `strings.TrimSuffix s suf` (removes one occurrence of the suffix). -/
def goTrimSuf (s suf : String) : String :=
  if goEndsWith s suf then String.mk (s.toList.take (s.toList.length - suf.toList.length)) else s

/-- Model of Go `strings.Trim s cutset`: strip all leading and trailing
characters belonging to `cutset`. -/
def goTrimChars (s cutset : String) : String :=
  String.mk (((s.toList.dropWhile (fun c => cutset.toList.contains c)).reverse.dropWhile
    (fun c => cutset.toList.contains c)).reverse)

/-- The ASCII white-space characters; model of `unicode.IsSpace` restricted to
the ASCII range, which is all that protocol command strings contain. -/
def isSpaceGo (c : Char) : Bool := c == ' ' || c == '\t' || c == '\n' || c == '\r'

/-- Model of Go `strings.TrimSpace`. -/
def goTrimSpace (s : String) : String :=
  String.mk (((s.toList.dropWhile isSpaceGo).reverse.dropWhile isSpaceGo).reverse)

/-- Split a character list at every occurrence of `sep`.  Mirrors Go
`strings.Split` for a one-character separator: every occurrence splits,
empty fields are kept, and the result is never the empty list. -/
def splitList (sep : Char) : List Char → List (List Char)
  | [] => [[]]
  | c :: rest =>
    match splitList sep rest with
    | [] => [[]]
    | cur :: parts => if c == sep then [] :: cur :: parts else (c :: cur) :: parts

/-- Model of Go `strings.Split`.  The client only ever splits on the
one-character separators `" "`, `":"` and `"\""`; other separators do not
occur and are left unmodelled (identity). -/
def goSplit (s sep : String) : List String :=
  match sep.toList with
  | [c] => (splitList c s.toList).map String.mk
  | _ => [s]

/-- Replace every occurrence of the character `old` by the string `new`
(character-list form). -/
def replaceAllChar (old : Char) (new : List Char) : List Char → List Char
  | [] => []
  | c :: rest =>
    if c == old then new ++ replaceAllChar old new rest else c :: replaceAllChar old new rest

/-- Model of Go `strings.ReplaceAll`.  The client only ever replaces the
one-character patterns `\` and `"`; other patterns do not occur and are left
unmodelled (identity). -/
def goReplaceAll (s old new : String) : String :=
  match old.toList with
  | [c] => String.mk (replaceAllChar c new.toList s.toList)
  | _ => s

/-- Model of Go `strings.ContainsAny s chars`. -/
def goContainsAny (s chars : String) : Bool := s.toList.any (fun c => chars.toList.contains c)

/-- Model of Go `strings.Contains` for the one-character needle `"."`, the
only needle the client uses. -/
def goContains (s sub : String) : Bool :=
  match sub.toList with
  | [c] => s.toList.contains c
  | _ => false

/-- Numeric value of a decimal digit character. -/
def digitVal (c : Char) : Nat := c.toNat - 48

/-- Decimal value of a digit list (most significant digit first). -/
def digitsVal (l : List Char) : Nat := l.foldl (fun a c => a * 10 + digitVal c) 0

/-- True when the list is a non-empty run of decimal digits. -/
def isDigits (l : List Char) : Bool := !l.isEmpty && l.all Char.isDigit

/-- Model of Go `strconv.ParseInt(s, 10, 64)`: optional sign, then decimal
digits; `none` both for a syntax error and for a value outside the `int64`
range (Go reports `ErrRange` there, and every call site treats any error
alike). -/
def goParseInt64 (s : String) : Option Int :=
  let p :=
    match s.toList with
    | '+' :: rest => (false, rest)
    | '-' :: rest => (true, rest)
    | l => (false, l)
  if isDigits p.2 then
    let v : Int := if p.1 then -(digitsVal p.2 : Int) else (digitsVal p.2 : Int)
    if v < -(2 ^ 63) ∨ v > 2 ^ 63 - 1 then none else some v
  else none

/-- Model of Go `strconv.Atoi` (which is `ParseInt(s, 10, 0)` with the
platform `int` being 64 bits wide). -/
def goAtoi (s : String) : Option Int := goParseInt64 s

/-- Smallest magnitude rejected by `float64` conversion: decimal values of
absolute value at least `(2^54 - 1) * 2^970` round to infinity and make
`strconv.ParseFloat` report `ErrRange`. -/
def float64CapNum : Nat := (2 ^ 54 - 1) * 2 ^ 970

/-- Model of Go `strconv.ParseFloat(s, 64)` on the plain decimal shapes
`-?\d+` and `-?\d+\.\d+` (the only shapes the client ever passes to it,
guarded by `numericRegex`).  A successfully parsed value is modelled as the
exact value of the literal, kept as a scaled integer mantissa `m` with `k`
fraction digits (the value is `m / 10^k`); IEEE-754 rounding is not
modelled because no property in this development inspects the rounded
value.  Conversion fails exactly on overflow (`|value| ≥ (2^54-1) * 2^970`,
Go's `ErrRange`); values small enough to round to zero are modelled as
succeeding. -/
def goParseFloat64 (s : String) : Option (Int × Nat) :=
  let p :=
    match s.toList with
    | '+' :: rest => (false, rest)
    | '-' :: rest => (true, rest)
    | l => (false, l)
  let mk : Nat → Nat → Option (Int × Nat) := fun mant k =>
    if float64CapNum * 10 ^ k ≤ mant then none
    else some ((if p.1 then -(mant : Int) else (mant : Int)), k)
  match splitList '.' p.2 with
  | [ip] => if isDigits ip then mk (digitsVal ip) 0 else none
  | [ip, fp] =>
    if isDigits ip && isDigits fp then
      mk (digitsVal ip * 10 ^ fp.length + digitsVal fp) fp.length
    else none
  | _ => none

/-- Strip one optional leading minus sign. -/
def stripSign (l : List Char) : List Char :=
  match l with
  | '-' :: rest => rest
  | l => l

/-- Model of the compiled pattern `numericRegex = ^-?\d+(?:\.\d+)?$` from the
source: an optional minus sign, a non-empty digit run, optionally followed by
a dot and another non-empty digit run. -/
def numericRegexMatch (s : String) : Bool :=
  match splitList '.' (stripSign s.toList) with
  | [ip] => isDigits ip
  | [ip, fp] => isDigits ip && isDigits fp
  | _ => false

/-- The spec claim's integer pattern `^-?\d+$`, stated from the spec's words. -/
def intShape (s : String) : Bool := isDigits (stripSign s.toList)

/-- The spec claim's float pattern `^-?\d+\.\d+$`, stated from the spec's words. -/
def floatShape (s : String) : Bool :=
  match splitList '.' (stripSign s.toList) with
  | [ip, fp] => isDigits ip && isDigits fp
  | _ => false

/-! ### The command protocol layer (`nut.go`) -/

/-- The failures a command round trip can produce: the server-reported
taxonomy plus the local error kinds (`fmt.Errorf` values in the source). -/
inductive NutError where
  | unknownCommand
  | invalidArgument
  | usernameRequired
  | passwordRequired
  | accessDenied
  | unknownUPS
  | varNotSupported
  | cmdNotSupported
  | readonlyVar
  | alreadySSLMode
  | cancelled
  | readError
  | sendError
  | emptyResponse (cmd : String)
  | parseError (msg : String)
  deriving DecidableEq

/-- Modelled from the spec: `errorForMessage` is called by `nut.go` but its
definition is not among the provided source files.  Per §4.2/§7 the code
between `ERR ` and the next space is looked up in a fixed taxonomy and "an
error code absent from the taxonomy maps to a generic unknown command
failure". -/
def errorForMessage (code : String) : NutError :=
  if code = "UNKNOWN-COMMAND" then .unknownCommand
  else if code = "INVALID-ARGUMENT" then .invalidArgument
  else if code = "USERNAME-REQUIRED" then .usernameRequired
  else if code = "PASSWORD-REQUIRED" then .passwordRequired
  else if code = "ACCESS-DENIED" then .accessDenied
  else if code = "UNKNOWN-UPS" then .unknownUPS
  else if code = "VAR-NOT-SUPPORTED" then .varNotSupported
  else if code = "CMD-NOT-SUPPORTED" then .cmdNotSupported
  else if code = "READONLY" then .readonlyVar
  else if code = "ALREADY-SSL-MODE" then .alreadySSLMode
  else .unknownCommand

/-- The client-connection counters (`ClientMetrics`); `Reconnects` and the
last-command timestamp play no role in the claims and are omitted. -/
structure Metrics where
  commandsSent : Nat
  commandsFailed : Nat
  bytesSent : Nat
  bytesReceived : Nat
  deriving DecidableEq

/-- All-zero counters, the state of a freshly connected client. -/
def metrics0 : Metrics := ⟨0, 0, 0, 0⟩

/-- Whether a command gets a multi-line response:
`strings.HasPrefix(strings.TrimSpace(cmd), "LIST ")`. -/
def isListCmd (cmd : String) : Bool := goStartsWith (goTrimSpace cmd) "LIST "

/-- The completion line the reader waits for: `"END <trimmed command>"` for a
listing command, `"OK"` otherwise (the trailing `\n` of the source's
`endLine` cancels against the `\n` terminating each received line). -/
def endLineFor (cmd : String) : String :=
  if isListCmd cmd then "END " ++ goTrimSpace cmd else "OK"

/-- The read loop of `ReadResponse` / `readResponseWithContext`: the server's
pending lines are `stream` (already stripped of their `\n` terminators);
every line read is appended to the response; reading stops after the first
line for a single-line command, and at the first line equal to `endLine` for
a multi-line command.  `none` models the read error raised when the stream
ends (timeout / EOF) before the response completes. -/
def readResponse (endLine : String) (multi : Bool) : List String → Option (List String)
  | [] => none
  | line :: rest =>
    if line = endLine ∨ multi = false then some [line]
    else
      match readResponse endLine multi rest with
      | none => none
      | some ls => some (line :: ls)

/-- The `ERR` check both command paths run on a freshly read response: if the
first line starts with `"ERR "`, split it on spaces and map the second field
through `errorForMessage`, returning no lines; the `"UNKNOWN-COMMAND"`
fallback of the source handles the (unreachable) case of no second field. -/
def checkErrResponse (resp : List String) : Except NutError (List String) :=
  match resp with
  | [] => .ok []
  | first :: _ =>
    if goStartsWith first "ERR " then
      match goSplit first " " with
      | _ :: second :: _ => .error (errorForMessage second)
      | _ => .error (errorForMessage "UNKNOWN-COMMAND")
    else .ok resp

/-- Sum of `len(line) + 1` over the response lines, the quantity
`sendCommandUnsafe` adds to the received-byte counter (`len` is the UTF-8
byte length). -/
def respBytes (resp : List String) : Nat :=
  resp.foldl (fun a line => a + (line.utf8ByteSize + 1)) 0

deriving instance DecidableEq for Except

/-- Result of one command round trip: the protocol result together with the
metrics counters after the call. -/
structure CmdResult where
  res : Except NutError (List String)
  metrics : Metrics
  deriving DecidableEq

/-- Model of `Client.SendCommandWithContext` (and of `Client.SendCommand`,
which calls it with a background context, i.e. `cancelled = false`):
classify the command, send it, read the response, map a leading `ERR` line.
`stream` is the server's pending line stream and `sendOk` models whether the
socket write succeeds.  Faithful to the source, this path never touches the
metrics counters. -/
def sendCommandWithContextM (cancelled : Bool) (cmd : String) (stream : List String)
    (sendOk : Bool) (m : Metrics) : CmdResult :=
  if cancelled then ⟨.error .cancelled, m⟩
  else if sendOk = false then ⟨.error .sendError, m⟩
  else
    match readResponse (endLineFor cmd) (isListCmd cmd) stream with
    | none => ⟨.error .readError, m⟩
    | some resp => ⟨checkErrResponse resp, m⟩

/-- Model of `Client.sendCommandUnsafe` (the path `Disconnect` uses for
`LOGOUT`): same protocol logic, but the metrics counters are maintained —
in particular every received line adds its length plus one (for the stripped
`\n`) to `BytesReceived`. -/
def sendCommandUnsafeM (cmd : String) (stream : List String) (sendOk : Bool)
    (m : Metrics) : CmdResult :=
  if sendOk = false then
    ⟨.error .sendError, { m with commandsFailed := m.commandsFailed + 1 }⟩
  else
    let m1 := { m with
      commandsSent := m.commandsSent + 1
      bytesSent := m.bytesSent + (cmd.utf8ByteSize + 1) }
    match readResponse (endLineFor cmd) (isListCmd cmd) stream with
    | none => ⟨.error .readError, { m1 with commandsFailed := m1.commandsFailed + 1 }⟩
    | some resp =>
      let m2 := { m1 with bytesReceived := m1.bytesReceived + respBytes resp }
      match checkErrResponse resp with
      | .error e => ⟨.error e, { m2 with commandsFailed := m2.commandsFailed + 1 }⟩
      | .ok ls => ⟨.ok ls, m2⟩

/-- A server environment: the stream of response lines the server sends for
each command line.  Deterministic per command, which matches the repeated
identical requests the registry layer makes. -/
def Env : Type := String → List String

/-- The registry layer's view of `SendCommand`: a round trip through
`SendCommandWithContext` with a background context and a healthy socket;
metrics are irrelevant to the callers modelled here. -/
def sendCommandE (env : Env) (cmd : String) : Except NutError (List String) :=
  (sendCommandWithContextM false cmd (env cmd) true metrics0).res

/-- The slice `resp[1 : len(resp)-1]` every listing parser iterates over
(guarded in the source by `len(resp) >= 2`). -/
def goSliceMid (l : List String) : List String := (l.drop 1).dropLast

/-! ### The device registry (`ups.go`).

Two revisions of this file are present in the repository; the embedding
follows the current one (lazy `NewUPS`, two-shape `TYPE` parsing), which is
the revision the spec describes. -/

/-- `quoteName` from the source: quote and escape a name containing a space,
tab, newline, carriage return or double quote, pass every other name through
unchanged. -/
def quoteName (name : String) : String :=
  if goContainsAny name " \t\n\r\"" then
    "\"" ++ goReplaceAll (goReplaceAll name "\\" "\\\\") "\"" "\\\"" ++ "\""
  else name

/-- The dynamically typed `Variable.Value` field (`interface{}` in Go).  A
successfully parsed `float64` is carried as the exact scaled-mantissa value
of the literal (see `goParseFloat64`). -/
inductive GoValue where
  | goStr (s : String)
  | goBool (b : Bool)
  | goInt (i : Int)
  | goFloat (mant : Int) (fracDigits : Nat)
  deriving DecidableEq

/-- The `Variable` record.  `MaximumLength` is the Go `int` field; the Go
field `Type` is called `TypeTag` here because `Type` is reserved in Lean. -/
structure Variable where
  Name : String
  Value : GoValue
  TypeTag : String
  Description : String
  Writeable : Bool
  MaximumLength : Int
  OriginalType : String
  deriving DecidableEq

/-- The value/type inference block of `GetVariables` (the `switch` on the
raw value string).  Returns the final `Type` tag and `Value`.  In the
source every branch of the switch assigns `OriginalType = varType` (the
numeric-failure branches fall through to the `Type == varType` reset, which
assigns it too), so `OriginalType` is set at the call site. -/
def inferTypedValue (raw varType : String) : String × GoValue :=
  if raw = "enabled" then ("BOOLEAN", .goBool true)
  else if raw = "disabled" then ("BOOLEAN", .goBool false)
  else
    let p :=
      if numericRegexMatch raw then
        if goContains raw "." then
          match goParseFloat64 raw with
          | some q => ("FLOAT_64", GoValue.goFloat q.1 q.2)
          | none => (varType, GoValue.goStr raw)
        else
          match goParseInt64 raw with
          | some i => ("INTEGER", GoValue.goInt i)
          | none => (varType, GoValue.goStr raw)
      else (varType, GoValue.goStr raw)
    if p.1 = varType then ("STRING", p.2) else p

/-- `UPS.GetVariableDescription`: one `GET DESC` round trip, strip the echo
prefix, delete all double quotes. -/
def getVariableDescription (env : Env) (upsName varName : String) : Except NutError String :=
  match sendCommandE env ("GET DESC " ++ quoteName upsName ++ " " ++ quoteName varName) with
  | .error e => .error e
  | .ok [] => .error (.emptyResponse "GET DESC")
  | .ok (first :: _) =>
    .ok (goReplaceAll (goTrimPre first ("DESC " ++ upsName ++ " " ++ varName ++ " ")) "\"" "")

/-- `UPS.GetVariableType`: one `GET TYPE` round trip; the payload is either
`<RW|RO> <type>` (modern) or `<type>` alone (legacy, assumed read-only), and
a `STRING:<N>` type token is split into the base type and a numeric maximum
length whose malformed suffix is a hard error. -/
def getVariableType (env : Env) (upsName varName : String) :
    Except NutError (String × Bool × Int) :=
  match sendCommandE env ("GET TYPE " ++ quoteName upsName ++ " " ++ quoteName varName) with
  | .error e => .error e
  | .ok [] => .error (.emptyResponse "GET TYPE")
  | .ok (first :: _) =>
    let trimmedLine := goTrimPre first ("TYPE " ++ upsName ++ " " ++ varName ++ " ")
    match goSplit trimmedLine " " with
    | [] => .error (.parseError "invalid TYPE response format")
    | s0 :: rest =>
      let wt :=
        match rest with
        | t1 :: _ => if s0 = "RW" ∨ s0 = "RO" then (s0 == "RW", t1) else (false, s0)
        | [] => (false, s0)
      if goStartsWith wt.2 "STRING:" then
        match goSplit wt.2 ":" with
        | t0 :: lenTok :: _ =>
          match goAtoi lenTok with
          | some n => .ok (t0, wt.1, n)
          | none => .error (.parseError "invalid STRING length")
        | _ => .ok (wt.2, wt.1, 0)
      else .ok (wt.2, wt.1, 0)

/-- The per-entry loop body of `UPS.GetVariables` over the middle slice of
the listing response: strip the `VAR <ups> ` prefix, split at the quotes,
skip a line with fewer than two fields, otherwise fetch the description and
type and build the `Variable`.  The source also returns the partially built
slice next to a mid-loop error; the `Except` model keeps only the error. -/
def processVarLines (env : Env) (upsName : String) : List String → Except NutError (List Variable)
  | [] => .ok []
  | line :: rest =>
    match goSplit (goTrimPre line ("VAR " ++ upsName ++ " ")) "\"" with
    | p0 :: p1 :: _ =>
      let rawValue := goTrimChars p1 " "
      let varName := goTrimSuf p0 " "
      match getVariableDescription env upsName varName with
      | .error e => .error e
      | .ok desc =>
        match getVariableType env upsName varName with
        | .error e => .error e
        | .ok (varType, w, ml) =>
          let tv := inferTypedValue rawValue varType
          match processVarLines env upsName rest with
          | .error e => .error e
          | .ok vs =>
            .ok ({ Name := varName, Value := tv.2, TypeTag := tv.1, Description := desc,
                   Writeable := w, MaximumLength := ml, OriginalType := varType } :: vs)
    | _ => processVarLines env upsName rest

/-- `UPS.GetVariables`: issue `LIST VAR`, return no variables for a response
shorter than two lines, otherwise walk `resp[1 : len(resp)-1]`. -/
def getVariables (env : Env) (upsName : String) : Except NutError (List Variable) :=
  match sendCommandE env ("LIST VAR " ++ quoteName upsName) with
  | .error e => .error e
  | .ok resp =>
    if resp.length < 2 then .ok []
    else processVarLines env upsName (goSliceMid resp)

/-! ### The connection pool (`Pool`), as a sequential state machine.

Each public pool operation holds the pool's lock around its individual
steps; the model executes one whole operation atomically, which is the
sequential (single caller at a time) semantics of the source. -/

/-- A pooled client, reduced to the one observable the pool inspects:
whether its connection is non-nil. -/
structure Client where
  connOpen : Bool
  deriving DecidableEq

/-- A newly connected client (`ConnectWithOptionsAndConfig` succeeded). -/
def freshClient : Client := ⟨true⟩

/-- Pool state: the idle queue (the buffered channel, in FIFO order), the
`activeClients` counter, the closed flag and the configured maximum.
`checkedOut` is a ghost field counting clients currently held by callers; it
exists only to restrict `Put` to well-behaved callers and is read by no pool
operation. -/
structure PoolState where
  idle : List Client
  active : Int
  closed : Bool
  maxSize : Nat
  checkedOut : Nat
  deriving DecidableEq

/-- `NewPool`: a non-positive requested size falls back to the default 10. -/
def poolInit (requestedMax : Int) : PoolState :=
  { idle := [], active := 0, closed := false,
    maxSize := (if requestedMax ≤ 0 then 10 else requestedMax).toNat, checkedOut := 0 }

/-- Outcome of `Pool.Get`. -/
inductive GetOutcome where
  | returned (c : Client) (s : PoolState)
  | blocked (s : PoolState)
  | connectFailed (s : PoolState)
  | poolClosed
  deriving DecidableEq

/-- The creation section of `Pool.Get`: wait when `activeClients` has
reached the maximum (sequentially the queue is empty whenever this branch
blocks, so the wait ends only through cancellation, with the state as
built so far); otherwise increment `activeClients` and dial, undoing the
increment when the dial fails. -/
def poolGetCreate (s : PoolState) (connectOk : Bool) : GetOutcome :=
  if (s.maxSize : Int) ≤ s.active then .blocked s
  else if connectOk then
    .returned freshClient { s with active := s.active + 1, checkedOut := s.checkedOut + 1 }
  else .connectFailed s

/-- `Pool.Get`: fail on a closed pool; prefer a queued idle client, but a
dequeued client whose connection is nil is discarded (decrementing
`activeClients`) before falling through to the creation section. -/
def poolGet (s : PoolState) (connectOk : Bool) : GetOutcome :=
  if s.closed then .poolClosed
  else
    match s.idle with
    | [] => poolGetCreate s connectOk
    | c :: rest =>
      if c.connOpen then .returned c { s with idle := rest, checkedOut := s.checkedOut + 1 }
      else poolGetCreate { s with idle := rest, active := s.active - 1 } connectOk

/-- `Pool.Put` for a non-nil client: close it when the pool is closed;
enqueue it when the channel has room; otherwise close it and decrement
`activeClients`.  The ghost `checkedOut` drops by one in every case. -/
def poolPut (s : PoolState) (c : Client) : PoolState :=
  if s.closed then { s with checkedOut := s.checkedOut - 1 }
  else if s.idle.length < s.maxSize then
    { s with idle := s.idle ++ [c], checkedOut := s.checkedOut - 1 }
  else { s with active := s.active - 1, checkedOut := s.checkedOut - 1 }

/-- `Pool.Close`: mark closed and drain-and-close every idle client. -/
def poolClose (s : PoolState) : PoolState :=
  if s.closed then s else { s with closed := true, idle := [] }

/-- One pool operation by a well-behaved caller (`Put` only of a previously
acquired client, of arbitrary health since the caller may have closed it). -/
inductive PoolStep : PoolState → PoolState → Prop where
  | getReturned {s : PoolState} (ok : Bool) (c : Client) {s2 : PoolState} :
      poolGet s ok = .returned c s2 → PoolStep s s2
  | getConnectFailed {s : PoolState} (ok : Bool) {s2 : PoolState} :
      poolGet s ok = .connectFailed s2 → PoolStep s s2
  | getCancelledWaiting {s : PoolState} (ok : Bool) {s2 : PoolState} :
      poolGet s ok = .blocked s2 → PoolStep s s2
  | put {s : PoolState} (c : Client) :
      0 < s.checkedOut → PoolStep s (poolPut s c)
  | close (s : PoolState) : PoolStep s (poolClose s)

/-- States a pool configured with `requestedMax` can reach under any
sequence of `Get` / `Put` / `Close` calls. -/
def PoolReachable (requestedMax : Int) (s : PoolState) : Prop :=
  Relation.ReflTransGen PoolStep (poolInit requestedMax) s

/-- `Pool.Stats`: `(len(p.clients), p.activeClients)`. -/
def poolStats (s : PoolState) : Nat × Int := (s.idle.length, s.active)

/-- The inductive invariant of the pool model: `activeClients` is
non-negative, never exceeds the configured maximum, and bounds the whole
client population (queued idle clients plus clients checked out). -/
def PoolInv (s : PoolState) : Prop :=
  0 ≤ s.active ∧ s.active ≤ (s.maxSize : Int) ∧
    (s.idle.length : Int) + (s.checkedOut : Int) ≤ s.active

/-! ### Spec-side definitions (stated from the spec's words, for comparison
with the embedded source) -/

/-- The set of characters whose presence makes `quoteName` quote: a space,
tab, newline, carriage return or double quote (the claim's list, extended by
newline and carriage return as the counterexample forces). -/
def needsQuote (name : String) : Bool :=
  name.toList.any (fun c => c == ' ' || c == '\t' || c == '\n' || c == '\r' || c == '"')

/-- The escaping quoting performs on one character: a backslash or double
quote gains a preceding backslash, anything else is unchanged. -/
def escapeChar (c : Char) : List Char :=
  if c = '\\' then ['\\', '\\'] else if c = '"' then ['\\', '"'] else [c]

/-- Character-by-character escaping of a whole name. -/
def escapeList : List Char → List Char
  | [] => []
  | c :: rest => escapeChar c ++ escapeList rest

/-- Left-to-right unescaping scan: a backslash followed by any character
yields that character; everything else passes through. -/
def unescapeList : List Char → List Char
  | [] => []
  | [c] => [c]
  | c :: d :: rest =>
    if c = '\\' then d :: unescapeList rest else c :: unescapeList (d :: rest)

/-- Modelled from the spec: the protocol's own unquoting (performed by the
server, so absent from this client's source) — strip the wrapping double
quotes if present and unescape the quoted body; a bare token is taken
as-is. -/
def unquoteName (s : String) : String :=
  let l := s.toList
  if 2 ≤ l.length ∧ l.head? = some '"' ∧ l.getLast? = some '"' then
    String.mk (unescapeList (l.drop 1).dropLast)
  else s

/-- The spec's description of the error code: "the token between `ERR ` and
the next space". -/
def errToken (line : String) : String :=
  String.mk ((line.toList.drop 4).takeWhile (fun c => !(c == ' ')))

/-! ### Concrete scenario data for counterexamples and witnesses -/

/-- A server whose `GET TYPE` answer for `var1` of `ups1` has the modern
`RW STRING:20` payload. -/
def typeEnvModern : Env := fun cmd =>
  if cmd = "GET TYPE ups1 var1" then ["TYPE ups1 var1 RW STRING:20"] else []

/-- A server whose `GET TYPE` answer for `var1` of `ups1` has the legacy
single-token `STRING:5` payload (no RW/RO flag). -/
def typeEnvLegacy : Env := fun cmd =>
  if cmd = "GET TYPE ups1 var1" then ["TYPE ups1 var1 STRING:5"] else []

/-- A server offering one UPS `myups` with one variable `battery.charge`
whose reported type token is `STRING:20`. -/
def cexEnv : Env := fun cmd =>
  if cmd = "LIST VAR myups" then
    ["BEGIN LIST VAR myups", "VAR myups battery.charge \"90\"", "END LIST VAR myups"]
  else if cmd = "GET DESC myups battery.charge" then
    ["DESC myups battery.charge \"Battery charge\""]
  else if cmd = "GET TYPE myups battery.charge" then
    ["TYPE myups battery.charge RW STRING:20"]
  else []

/-- The pool state reached from `NewPool(MaxSize: 1)` by one successful
`Get` followed by one `Put`. -/
def poolCexState : PoolState :=
  { idle := [freshClient], active := 1, closed := false, maxSize := 1, checkedOut := 0 }

/-- The pool state reached from `NewPool(MaxSize: 1)` by one successful
`Get` (the sole client is checked out). -/
def poolMidState : PoolState :=
  { idle := [], active := 1, closed := false, maxSize := 1, checkedOut := 1 }

/-- A pool whose idle queue holds one client with a nil connection. -/
def cexDeadPool : PoolState :=
  { idle := [⟨false⟩], active := 1, closed := false, maxSize := 2, checkedOut := 0 }

/-- The single variable `getVariables cexEnv "myups"` produces. -/
def cexVariable : Variable :=
  { Name := "battery.charge", Value := .goInt 90, TypeTag := "INTEGER",
    Description := "Battery charge", Writeable := true, MaximumLength := 20,
    OriginalType := "STRING" }

/-! ## Helper lemmas about the embedded primitives -/

theorem contains_ws_char (c : Char) :
    ([' ', '\t', '\n', '\r', '"'].contains c) =
      (c == ' ' || c == '\t' || c == '\n' || c == '\r' || c == '"') := by
  simp only [List.contains, List.elem]
  rcases h1 : c == ' ' <;> rcases h2 : c == '\t' <;> rcases h3 : c == '\n' <;>
    rcases h4 : c == '\r' <;> rcases h5 : c == '"' <;> simp [h1, h2, h3, h4, h5]

theorem goContainsAny_ws_eq (name : String) :
    goContainsAny name " \t\n\r\"" = needsQuote name := by
  unfold goContainsAny needsQuote
  have h : (" \t\n\r\"" : String).toList = [' ', '\t', '\n', '\r', '"'] := rfl
  rw [h]
  induction name.toList with
  | nil => rfl
  | cons c rest ih => simp only [List.any_cons, ih, contains_ws_char]

theorem replaceAllChar_append (old : Char) (new a b : List Char) :
    replaceAllChar old new (a ++ b) = replaceAllChar old new a ++ replaceAllChar old new b := by
  induction a with
  | nil => rfl
  | cons c rest ih => rcases h : c == old <;> simp [replaceAllChar, h, ih]

theorem escape_comp (l : List Char) :
    replaceAllChar '"' ['\\', '"'] (replaceAllChar '\\' ['\\', '\\'] l) = escapeList l := by
  induction l with
  | nil => rfl
  | cons c rest ih =>
    by_cases h1 : c = '\\'
    · subst h1
      simp [replaceAllChar, escapeList, escapeChar, replaceAllChar_append, ih]
    · by_cases h2 : c = '"'
      · subst h2
        simp [replaceAllChar, escapeList, escapeChar, replaceAllChar_append, ih]
      · simp [replaceAllChar, escapeList, escapeChar, h1, h2, ih]

theorem quoteName_spec (name : String) :
    quoteName name =
      if needsQuote name then String.mk ('"' :: (escapeList name.toList ++ ['"'])) else name := by
  unfold quoteName
  rw [goContainsAny_ws_eq]
  rcases hb : needsQuote name
  · simp [hb]
  · simp only [hb, if_true]
    have h2 : goReplaceAll (goReplaceAll name "\\" "\\\\") "\"" "\\\"" =
        String.mk (escapeList name.toList) :=
      congrArg String.mk (escape_comp name.toList)
    rw [h2]
    rfl

theorem escapeList_eq_nil_iff (l : List Char) : escapeList l = [] ↔ l = [] := by
  cases l with
  | nil => simp [escapeList]
  | cons c rest =>
    simp only [escapeList]
    constructor
    · intro hc
      exfalso
      have : escapeChar c ≠ [] := by
        unfold escapeChar
        by_cases hc1 : c = '\\' <;> by_cases hc2 : c = '"' <;> simp [hc1, hc2]
      exact this (List.append_eq_nil.mp hc).1
    · intro hc
      exact absurd hc (by simp)

theorem unescape_escape (l : List Char) : unescapeList (escapeList l) = l := by
  induction l with
  | nil => rfl
  | cons c rest ih =>
    by_cases h1 : c = '\\'
    · subst h1
      simp [escapeList, escapeChar, unescapeList, ih]
    · by_cases h2 : c = '"'
      · subst h2
        simp [escapeList, escapeChar, unescapeList, ih]
      · simp only [escapeList, escapeChar, if_neg h1, if_neg h2, List.singleton_append]
        cases hE : escapeList rest with
        | nil =>
          have : rest = [] := (escapeList_eq_nil_iff rest).mp hE
          subst this
          rfl
        | cons d tail =>
          rw [hE] at ih
          simp [unescapeList, h1, ih]

/-! ## Claim C1 -/

/-- C1: `GetVariableType` parses a TYPE response in both historic shapes:
the modern payload `RW STRING:20` yields type `STRING`, writeable true,
maximum length 20, and the legacy single-token payload `STRING:5` yields
type `STRING`, writeable false (assumed read-only), maximum length 5 —
neither is an error. -/
theorem C1_getVariableType_two_shapes :
    getVariableType typeEnvModern "ups1" "var1" = .ok ("STRING", true, 20) ∧
    getVariableType typeEnvLegacy "ups1" "var1" = .ok ("STRING", false, 5) := by
  decide

/-! ## Claim C3 -/

/-- C3 counterexample: the name `"a\nb"` contains no space, tab or double
quote, yet `quoteName` is not the identity on it (the source also quotes
newline and carriage return). -/
theorem C3_cex_newline_quoted :
    ("a\nb".toList.all (fun c => !(c == ' ' || c == '\t' || c == '"'))) = true ∧
    quoteName "a\nb" ≠ "a\nb" := by
  decide

/-- C3 amended: `quoteName` quotes exactly the names containing a space,
tab, newline, carriage return or double quote, wrapping them in double
quotes with each internal backslash and double quote backslash-escaped
(backslashes first); every other name is returned unchanged. -/
theorem C3_quoteName_characterized (name : String) :
    quoteName name =
      if needsQuote name then String.mk ('"' :: (escapeList name.toList ++ ['"'])) else name :=
  quoteName_spec name

/-! ## Claim C8 -/

/-- C8: for names made only of backslash, double-quote and whitespace
characters, `quoteName` followed by the protocol's unquoting (strip the
wrapping quotes if present, unescape the quoted body) recovers the name. -/
theorem C8_roundtrip (name : String)
    (h : ∀ c ∈ name.toList,
      c = '\\' ∨ c = '"' ∨ c = ' ' ∨ c = '\t' ∨ c = '\n' ∨ c = '\r') :
    unquoteName (quoteName name) = name := by
  rw [quoteName_spec]
  rcases hb : needsQuote name
  · rw [if_neg (by simp [hb])]
    unfold unquoteName
    rw [if_neg]
    intro hcond
    rcases hcond with ⟨hlen, hhead, hlast⟩
    have hmem : '"' ∈ name.toList := by
      cases hl : name.toList with
      | nil => rw [hl] at hhead; exact absurd hhead (by simp)
      | cons a t =>
        rw [hl] at hhead
        simp only [List.head?_cons, Option.some.injEq] at hhead
        rw [← hhead]
        exact List.mem_cons_self a t
    have : needsQuote name = true := by
      unfold needsQuote
      rw [List.any_eq_true]
      exact ⟨'"', hmem, by decide⟩
    rw [this] at hb
    exact absurd hb (by simp)
  · rw [if_pos rfl]
    unfold unquoteName
    rw [if_pos]
    · show String.mk (unescapeList ((('"' :: (escapeList name.toList ++ ['"'])).drop 1).dropLast)) = name
      rw [List.drop_one, List.tail_cons, List.dropLast_concat, unescape_escape]
      rfl
    · refine ⟨by simp, by simp, ?_⟩
      show ('"' :: (escapeList name.toList ++ ['"'])).getLast? = some '"'
      rw [show ('"' :: (escapeList name.toList ++ ['"'])) =
        ('"' :: escapeList name.toList) ++ ['"'] from by simp, List.getLast?_concat]

/-- Witness for C8 at the name made of a space, a backslash and a double
quote. -/
theorem C8_roundtrip_witness : unquoteName (quoteName " \\\"") = " \\\"" :=
  C8_roundtrip " \\\"" (by decide)

/-! ## Helper lemmas about `splitList` and the numeric shapes -/

theorem splitList_ne_nil (sep : Char) (l : List Char) : splitList sep l ≠ [] := by
  cases l with
  | nil => simp [splitList]
  | cons c rest =>
    simp only [splitList]
    cases h : splitList sep rest with
    | nil => simp
    | cons cur parts => rcases hc : c == sep <;> simp [hc]

theorem splitList_single (sep : Char) (l m : List Char)
    (h : splitList sep l = [m]) : m = l := by
  induction l generalizing m with
  | nil =>
    simp only [splitList] at h
    injection h with h1 h2
    exact h1.symm
  | cons c rest ih =>
    simp only [splitList] at h
    cases hs : splitList sep rest with
    | nil => exact absurd hs (splitList_ne_nil sep rest)
    | cons cur parts =>
      rw [hs] at h
      by_cases hceq : c = sep
      · simp [hceq] at h
      · simp only [beq_iff_eq, if_neg hceq] at h
        injection h with h1 h2
        subst h2
        have hcur := ih cur hs
        subst hcur
        exact h1.symm

theorem splitList_no_sep (sep : Char) (l : List Char) (h : sep ∉ l) :
    splitList sep l = [l] := by
  induction l with
  | nil => rfl
  | cons c rest ih =>
    have hc : ¬(c = sep) := fun hh => h (by rw [← hh]; exact List.mem_cons_self c rest)
    have hrest : sep ∉ rest := fun hh => h (List.mem_cons_of_mem c hh)
    simp only [splitList, ih hrest]
    simp [hc]

theorem splitList_pair (sep : Char) (l ip fp : List Char)
    (h : splitList sep l = [ip, fp]) : l = ip ++ sep :: fp := by
  induction l generalizing ip with
  | nil => simp [splitList] at h
  | cons c rest ih =>
    simp only [splitList] at h
    cases hs : splitList sep rest with
    | nil => exact absurd hs (splitList_ne_nil sep rest)
    | cons cur parts =>
      rw [hs] at h
      by_cases hceq : c = sep
      · simp only [beq_iff_eq, if_pos hceq] at h
        injection h with h1 h2
        injection h2 with h2 h3
        subst h3
        have hcur := splitList_single sep rest cur hs
        subst hcur
        rw [← h1, hceq, h2]
        rfl
      · simp only [beq_iff_eq, if_neg hceq] at h
        injection h with h1 h2
        subst h2
        have := ih cur hs
        rw [← h1, this]
        rfl

theorem splitList_head (sep : Char) (l : List Char) :
    ∃ ps, splitList sep l = (l.takeWhile (fun c => !(c == sep))) :: ps := by
  induction l with
  | nil => exact ⟨[], rfl⟩
  | cons c rest ih =>
    obtain ⟨ps, hps⟩ := ih
    by_cases hceq : c = sep
    · cases hs : splitList sep rest with
      | nil => exact absurd hs (splitList_ne_nil sep rest)
      | cons cur parts =>
        refine ⟨cur :: parts, ?_⟩
        simp [splitList, hs, hceq, List.takeWhile_cons]
    · refine ⟨ps, ?_⟩
      simp [splitList, hps, hceq, List.takeWhile_cons]

theorem isDigits_no_dot_split (l : List Char) (h : isDigits l = true) :
    splitList '.' l = [l] := by
  apply splitList_no_sep
  intro hmem
  unfold isDigits at h
  rw [Bool.and_eq_true, List.all_eq_true] at h
  have := h.2 '.' hmem
  exact absurd this (by decide)

theorem numericRegexMatch_eq_shapes (s : String) :
    numericRegexMatch s = (intShape s || floatShape s) := by
  unfold numericRegexMatch intShape floatShape
  cases hs : splitList '.' (stripSign s.toList) with
  | nil => exact absurd hs (splitList_ne_nil _ _)
  | cons a t =>
    cases t with
    | nil =>
      have ha := splitList_single _ _ _ hs
      subst ha
      simp
    | cons b t2 =>
      have hd : isDigits (stripSign s.toList) = false := by
        rcases hdc : isDigits (stripSign s.toList)
        · rfl
        · have h2 := isDigits_no_dot_split _ hdc
          rw [hs] at h2
          cases t2 <;> simp at h2
      have hd2 : isDigits (stripSign s.data) = false := hd
      cases t2 <;> simp [hd, hd2]

theorem mem_of_mem_stripSign (c : Char) (l : List Char) (h : c ∈ stripSign l) : c ∈ l := by
  unfold stripSign at h
  split at h
  · exact List.mem_cons_of_mem _ h
  · exact h

theorem mem_stripSign_of_mem (c : Char) (l : List Char) (hne : c ≠ '-') (h : c ∈ l) :
    c ∈ stripSign l := by
  unfold stripSign
  split
  · exact (List.mem_cons.mp h).resolve_left hne
  · exact h

theorem intShape_no_dot (s : String) (h : intShape s = true) :
    goContains s "." = false := by
  unfold goContains
  show s.toList.contains '.' = false
  rcases hcon : s.toList.contains '.'
  · rfl
  · exfalso
    have hmem : '.' ∈ s.toList := List.mem_of_elem_eq_true hcon
    unfold intShape at h
    rw [isDigits, Bool.and_eq_true, List.all_eq_true] at h
    have hmem2 : ('.' : Char) ∈ stripSign s.toList :=
      mem_stripSign_of_mem '.' s.toList (by decide) hmem
    have := h.2 '.' hmem2
    exact absurd this (by decide)

theorem floatShape_has_dot (s : String) (h : floatShape s = true) :
    goContains s "." = true := by
  unfold goContains
  show s.toList.contains '.' = true
  apply List.elem_eq_true_of_mem
  unfold floatShape at h
  cases hs : splitList '.' (stripSign s.toList) with
  | nil => exact absurd hs (splitList_ne_nil _ _)
  | cons a t =>
    rw [hs] at h
    cases t with
    | nil => simp at h
    | cons b t2 =>
      cases t2 with
      | cons d t3 => simp at h
      | nil =>
        have hl := splitList_pair _ _ _ _ hs
        have hmem2 : ('.' : Char) ∈ stripSign s.toList := by
          rw [hl]
          simp
        exact mem_of_mem_stripSign _ _ hmem2

/-! ## Claim C4 -/

/-- C4 counterexample: `"99999999999999999999"` matches the claim's integer
pattern `^-?\d+$`, but it exceeds the int64 range, so `GetVariables` falls
back to a string-typed value instead of producing an integer-typed one. -/
theorem C4_cex_int64_overflow :
    intShape "99999999999999999999" = true ∧
    (inferTypedValue "99999999999999999999" "NUMBER").1 = "STRING" ∧
    (inferTypedValue "99999999999999999999" "NUMBER").1 ≠ "INTEGER" := by
  decide

/-- C4 amended: provided the device-reported type token is not itself one of
the inference tags `INTEGER` / `FLOAT_64` (the final `Type == varType` reset
would downgrade those to `STRING`), the literals `enabled`/`disabled` yield
boolean true/false; a string matching `^-?\d+$` yields an integer-typed
value when it fits in int64 and a string-typed value otherwise; a string
matching `^-?\d+\.\d+$` yields a float-typed value when the float64
conversion succeeds and a string-typed value otherwise; every other string
yields a string-typed value. -/
theorem C4_amended_inference (raw varType : String)
    (hvt1 : varType ≠ "INTEGER") (hvt2 : varType ≠ "FLOAT_64") :
    inferTypedValue "enabled" varType = ("BOOLEAN", GoValue.goBool true) ∧
    inferTypedValue "disabled" varType = ("BOOLEAN", GoValue.goBool false) ∧
    (intShape raw = true → (goParseInt64 raw).isSome = true →
      (inferTypedValue raw varType).1 = "INTEGER") ∧
    (floatShape raw = true → (goParseFloat64 raw).isSome = true →
      (inferTypedValue raw varType).1 = "FLOAT_64") ∧
    (raw ≠ "enabled" → raw ≠ "disabled" → intShape raw = false → floatShape raw = false →
      (inferTypedValue raw varType).1 = "STRING") ∧
    (intShape raw = true → goParseInt64 raw = none →
      (inferTypedValue raw varType).1 = "STRING") ∧
    (floatShape raw = true → goParseFloat64 raw = none →
      (inferTypedValue raw varType).1 = "STRING") := by
  refine ⟨by simp [inferTypedValue], by simp [inferTypedValue], ?_, ?_, ?_, ?_, ?_⟩
  · intro hshape hsome
    have hne1 : raw ≠ "enabled" := by rintro rfl; exact absurd hshape (by decide)
    have hne2 : raw ≠ "disabled" := by rintro rfl; exact absurd hshape (by decide)
    have hnum : numericRegexMatch raw = true := by
      rw [numericRegexMatch_eq_shapes, hshape, Bool.true_or]
    have hdot := intShape_no_dot raw hshape
    rcases hp : goParseInt64 raw with _ | i
    · rw [hp] at hsome
      exact absurd hsome (by simp)
    · simp [inferTypedValue, hne1, hne2, hnum, hdot, hp, Ne.symm hvt1]
  · intro hshape hsome
    have hne1 : raw ≠ "enabled" := by rintro rfl; exact absurd hshape (by decide)
    have hne2 : raw ≠ "disabled" := by rintro rfl; exact absurd hshape (by decide)
    have hnum : numericRegexMatch raw = true := by
      rw [numericRegexMatch_eq_shapes, hshape, Bool.or_true]
    have hdot := floatShape_has_dot raw hshape
    rcases hp : goParseFloat64 raw with _ | q
    · rw [hp] at hsome
      exact absurd hsome (by simp)
    · simp [inferTypedValue, hne1, hne2, hnum, hdot, hp, Ne.symm hvt2]
  · intro hne1 hne2 hint hfloat
    have hnum : numericRegexMatch raw = false := by
      rw [numericRegexMatch_eq_shapes, hint, hfloat]
      rfl
    simp [inferTypedValue, hne1, hne2, hnum]
  · intro hshape hnone
    have hne1 : raw ≠ "enabled" := by rintro rfl; exact absurd hshape (by decide)
    have hne2 : raw ≠ "disabled" := by rintro rfl; exact absurd hshape (by decide)
    have hnum : numericRegexMatch raw = true := by
      rw [numericRegexMatch_eq_shapes, hshape, Bool.true_or]
    have hdot := intShape_no_dot raw hshape
    simp [inferTypedValue, hne1, hne2, hnum, hdot, hnone]
  · intro hshape hnone
    have hne1 : raw ≠ "enabled" := by rintro rfl; exact absurd hshape (by decide)
    have hne2 : raw ≠ "disabled" := by rintro rfl; exact absurd hshape (by decide)
    have hnum : numericRegexMatch raw = true := by
      rw [numericRegexMatch_eq_shapes, hshape, Bool.or_true]
    have hdot := floatShape_has_dot raw hshape
    simp [inferTypedValue, hne1, hne2, hnum, hdot, hnone]

/-- Witness for C4 at the raw value `42` with reported type `NUMBER`. -/
theorem C4_amended_inference_witness :
    (inferTypedValue "42" "NUMBER").1 = "INTEGER" :=
  (C4_amended_inference "42" "NUMBER" (by decide) (by decide)).2.2.1 (by decide) (by decide)

/-! ## Claim C5 -/

theorem processVarLines_type_eq (env : Env) (ups : String) (lines : List String) :
    ∀ vars : List Variable, processVarLines env ups lines = .ok vars →
      ∀ v ∈ vars, getVariableType env ups v.Name = .ok (v.OriginalType, v.Writeable, v.MaximumLength) := by
  induction lines with
  | nil =>
    intro vars h v hv
    simp only [processVarLines] at h
    cases h
    exact absurd hv (by simp)
  | cons line rest ih =>
    intro vars h v hv
    simp only [processVarLines] at h
    split at h
    · split at h
      · exact absurd h (by simp)
      · split at h
        · exact absurd h (by simp)
        · split at h
          · exact absurd h (by simp)
          · rename_i x3 p0 p1 ptail hsplit x2 desc hdesc x1 varType w ml htype x0 vs hrec
            cases h
            rcases List.mem_cons.mp hv with hveq | hvmem
            · subst hveq
              exact htype
            · exact ih vs hrec v hvmem
    · exact ih vars h v hv

/-- C5 counterexample: for a device whose `GET TYPE` answer carries the
literal token `STRING:20`, the produced variable's `OriginalType` is the
already-parsed base type `STRING`, not the server's literal token. -/
theorem C5_cex_originalType_not_literal :
    (match getVariables cexEnv "myups" with
     | .ok vs => vs.map Variable.OriginalType
     | .error _ => []) = ["STRING"] ∧
    (match getVariables cexEnv "myups" with
     | .ok vs => vs.map Variable.OriginalType
     | .error _ => []) ≠ ["STRING:20"] := by
  decide

/-- C5 amended: for every variable `GetVariables` produces, `OriginalType`
(together with `Writeable` and `MaximumLength`) equals the parsed result of
`GetVariableType` for that variable — the base type token after the RW/RO
flag is consumed and a `STRING:<N>` suffix is split off — rather than the
server's literal TYPE token; the inference may overwrite `Type` and `Value`
but never this field. -/
theorem C5_amended_originalType (env : Env) (ups : String) (vars : List Variable)
    (h : getVariables env ups = .ok vars) :
    ∀ v ∈ vars, getVariableType env ups v.Name = .ok (v.OriginalType, v.Writeable, v.MaximumLength) := by
  unfold getVariables at h
  split at h
  · exact absurd h (by simp)
  · split at h
    · cases h
      intro v hv
      exact absurd hv (by simp)
    · exact processVarLines_type_eq env ups _ vars h

/-- Witness for C5: the variable produced by the concrete scenario, fed back
through the theorem. -/
theorem C5_amended_originalType_witness :
    getVariableType cexEnv "myups" cexVariable.Name =
      .ok (cexVariable.OriginalType, cexVariable.Writeable, cexVariable.MaximumLength) :=
  C5_amended_originalType cexEnv "myups" [cexVariable] (by decide) cexVariable
    (List.mem_singleton.mpr rfl)

/-! ## Claim C6 -/

/-- C6 (code bug): `sendCommandUnsafe` — the path only `Disconnect`'s
`LOGOUT` uses — adds each received line's length plus one to
`BytesReceived` (command `VER` answered by the line `1.0` adds 4 bytes),
but `SendCommandWithContext`, through which every other command of the
session flows, never touches any metrics counter, contradicting the
repository's documentation that the metrics track the commands and bytes of
the connection. -/
theorem C6_bytesReceived_divergence :
    (∀ (cancelled : Bool) (cmd : String) (stream : List String) (sendOk : Bool) (m : Metrics),
      (sendCommandWithContextM cancelled cmd stream sendOk m).metrics = m) ∧
    (sendCommandUnsafeM "VER" ["1.0"] true metrics0).metrics.bytesReceived = 4 ∧
    (sendCommandWithContextM false "VER" ["1.0"] true metrics0).res = .ok ["1.0"] := by
  refine ⟨?_, by decide, by decide⟩
  intro cancelled cmd stream sendOk m
  unfold sendCommandWithContextM
  split
  · rfl
  · split
    · rfl
    · split <;> rfl

/-! ## Claim C7 -/

theorem listIsPre_iff (p l : List Char) : listIsPre p l = true ↔ ∃ t, l = p ++ t := by
  induction p generalizing l with
  | nil => simp [listIsPre]
  | cons a as ih =>
    cases l with
    | nil => simp [listIsPre]
    | cons b bs =>
      simp only [listIsPre, Bool.and_eq_true, beq_iff_eq, ih, List.cons_append, List.cons.injEq]
      constructor
      · rintro ⟨hab, t, ht⟩
        exact ⟨t, hab.symm, ht⟩
      · rintro ⟨t, hba, ht⟩
        exact ⟨hba.symm, t, ht⟩

theorem splitList_err_word (t : List Char) :
    splitList ' ' ('E' :: 'R' :: 'R' :: ' ' :: t) =
      ['E', 'R', 'R'] :: splitList ' ' t := by
  cases hs : splitList ' ' t with
  | nil => exact absurd hs (splitList_ne_nil _ _)
  | cons cur parts => simp [splitList, hs]

theorem checkErrResponse_err (first : String) (rest : List String)
    (herr : goStartsWith first "ERR " = true) :
    checkErrResponse (first :: rest) = .error (errorForMessage (errToken first)) := by
  obtain ⟨t, ht⟩ := (listIsPre_iff "ERR ".toList first.toList).mp herr
  have ht2 : first.toList = 'E' :: 'R' :: 'R' :: ' ' :: t := ht
  obtain ⟨ps, hps⟩ := splitList_head ' ' t
  have hsplit : goSplit first " " =
      String.mk ['E', 'R', 'R'] ::
        String.mk (t.takeWhile (fun c => !(c == ' '))) :: ps.map String.mk := by
    show (splitList ' ' first.toList).map String.mk = _
    rw [ht2, splitList_err_word, hps]
    rfl
  have htok : errToken first = String.mk (t.takeWhile (fun c => !(c == ' '))) := by
    unfold errToken
    rw [ht2]
    rfl
  show (if goStartsWith first "ERR " = true then
      match goSplit first " " with
      | _ :: second :: _ => Except.error (errorForMessage second)
      | _ => Except.error (errorForMessage "UNKNOWN-COMMAND")
    else Except.ok (first :: rest)) = Except.error (errorForMessage (errToken first))
  rw [if_pos herr, hsplit, htok]

/-- C7: whenever the first response line starts with `ERR `, the command
returns the typed failure obtained by looking the token between `ERR ` and
the next space up in the fixed taxonomy (via `errorForMessage`, whose
unmapped and absent codes map to the unknown-command failure), and no
response lines are returned alongside the error. -/
theorem C7_err_mapping (cmd : String) (stream : List String) (m : Metrics)
    (first : String) (rest : List String)
    (hread : readResponse (endLineFor cmd) (isListCmd cmd) stream = some (first :: rest))
    (herr : goStartsWith first "ERR " = true) :
    (sendCommandWithContextM false cmd stream true m).res =
      .error (errorForMessage (errToken first)) ∧
    ∀ ls : List String, (sendCommandWithContextM false cmd stream true m).res ≠ .ok ls := by
  have hres : (sendCommandWithContextM false cmd stream true m).res =
      checkErrResponse (first :: rest) := by
    unfold sendCommandWithContextM
    rw [if_neg (by simp), if_neg (by simp), hread]
  rw [hres, checkErrResponse_err first rest herr]
  exact ⟨rfl, by simp⟩

/-- Witness for C7: a response whose first line is `ERR UNKNOWN-COMMAND`
surfaces as the mapped failure with no lines. -/
theorem C7_err_mapping_witness :
    (sendCommandWithContextM false "GET VAR x" ["ERR UNKNOWN-COMMAND"] true metrics0).res =
      .error (errorForMessage (errToken "ERR UNKNOWN-COMMAND")) :=
  (C7_err_mapping "GET VAR x" ["ERR UNKNOWN-COMMAND"] metrics0 "ERR UNKNOWN-COMMAND" []
    (by decide) (by decide)).1

/-! ## Claim C9 -/

theorem readResponse_multi (endLine : String) (stream resp : List String)
    (h : readResponse endLine true stream = some resp) :
    resp ≠ [] ∧ resp.head? = stream.head? ∧ resp.getLast? = some endLine ∧
      ∀ l ∈ resp.dropLast, l ≠ endLine := by
  induction stream generalizing resp with
  | nil => simp [readResponse] at h
  | cons line rest ih =>
    simp only [readResponse] at h
    by_cases hl : line = endLine
    · rw [if_pos (Or.inl hl)] at h
      cases h
      subst hl
      exact ⟨by simp, by simp, by simp, by simp⟩
    · rw [if_neg (by simp [hl])] at h
      cases hr : readResponse endLine true rest with
      | none => rw [hr] at h; exact absurd h (by simp)
      | some ls =>
        rw [hr] at h
        cases h
        obtain ⟨hne, hhead, hlast, hmid⟩ := ih ls hr
        obtain ⟨x, xs, rfl⟩ := List.exists_cons_of_ne_nil hne
        refine ⟨by simp, by simp, hlast, ?_⟩
        intro l hmem
        rcases List.mem_cons.mp hmem with hleq | hlmem
        · rw [hleq]
          exact hl
        · exact hmid l hlmem

theorem checkErrResponse_ok_eq (r resp : List String)
    (h : checkErrResponse r = .ok resp) : resp = r := by
  unfold checkErrResponse at h
  split at h
  · cases h
    rfl
  · split at h
    · split at h <;> exact absurd h (by simp)
    · cases h
      rfl

/-- C9: every successfully completed multi-line (LIST) command returns the
raw line block: the first line of the server's stream (the protocol header)
stays the first element, the sentinel `END <command>` stays the last element
and occurs nowhere earlier, and the `resp[1 : len-1]` slice the listing
parsers walk is exactly the entry lines strictly between the two. -/
theorem C9_list_response_boundaries (cmd : String) (stream : List String) (m : Metrics)
    (resp : List String)
    (hlist : isListCmd cmd = true)
    (h : (sendCommandWithContextM false cmd stream true m).res = .ok resp) :
    resp ≠ [] ∧ resp.head? = stream.head? ∧
      resp.getLast? = some ("END " ++ goTrimSpace cmd) ∧
      (∀ l ∈ resp.dropLast, l ≠ "END " ++ goTrimSpace cmd) ∧
      ∀ hdr entries, resp = hdr :: (entries ++ ["END " ++ goTrimSpace cmd]) →
        goSliceMid resp = entries := by
  have hend : endLineFor cmd = "END " ++ goTrimSpace cmd := by
    unfold endLineFor
    rw [if_pos hlist]
  unfold sendCommandWithContextM at h
  rw [if_neg (by simp), if_neg (by simp)] at h
  cases hr : readResponse (endLineFor cmd) (isListCmd cmd) stream with
  | none => rw [hr] at h; exact absurd h (by simp)
  | some r =>
    rw [hr] at h
    have hresp : resp = r := checkErrResponse_ok_eq r resp h
    subst hresp
    rw [hlist, hend] at hr
    obtain ⟨hne, hhead, hlast, hmid⟩ := readResponse_multi _ _ _ hr
    refine ⟨hne, hhead, hlast, hmid, ?_⟩
    intro hdr entries hshape
    rw [hshape]
    unfold goSliceMid
    rw [List.drop_one, List.tail_cons, List.dropLast_concat]

/-- Witness for C9 at a three-line `LIST VAR` exchange. -/
theorem C9_list_response_witness :
    (["BEGIN LIST VAR ups", "VAR ups a \"1\"", "END LIST VAR ups"] : List String).getLast? =
      some ("END " ++ goTrimSpace "LIST VAR ups") :=
  (C9_list_response_boundaries "LIST VAR ups"
    ["BEGIN LIST VAR ups", "VAR ups a \"1\"", "END LIST VAR ups"] metrics0
    ["BEGIN LIST VAR ups", "VAR ups a \"1\"", "END LIST VAR ups"]
    (by decide) (by decide)).2.2.1

/-! ## Pool invariant lemmas -/

theorem poolStep_inv (s s2 : PoolState) (hstep : PoolStep s s2) (hinv : PoolInv s) :
    PoolInv s2 := by
  obtain ⟨h1, h2, h3⟩ := hinv
  cases hstep with
  | getReturned ok c h =>
    unfold poolGet at h
    split at h
    · exact absurd h (by simp)
    · split at h
      · rename_i hidleEq
        have hlen : (s.idle.length : Int) = 0 := by rw [hidleEq]; rfl
        unfold poolGetCreate at h
        split at h
        · exact absurd h (by simp)
        · rename_i hcap
          split at h
          · cases h
            refine ⟨?_, ?_, ?_⟩ <;> dsimp only <;> omega
          · exact absurd h (by simp)
      · rename_i cl restl hidleEq
        have hlen : (s.idle.length : Int) = (restl.length : Int) + 1 := by
          rw [hidleEq]; push_cast [List.length_cons]; ring
        split at h
        · cases h
          refine ⟨?_, ?_, ?_⟩ <;> dsimp only <;> omega
        · unfold poolGetCreate at h
          split at h
          · exact absurd h (by simp)
          · rename_i hcap
            have hcap2 : ¬((s.maxSize : Int) ≤ s.active - 1) := hcap
            split at h
            · cases h
              refine ⟨?_, ?_, ?_⟩ <;> dsimp only <;> omega
            · exact absurd h (by simp)
  | getConnectFailed ok h =>
    unfold poolGet at h
    split at h
    · exact absurd h (by simp)
    · split at h
      · unfold poolGetCreate at h
        split at h
        · exact absurd h (by simp)
        · split at h
          · exact absurd h (by simp)
          · cases h
            exact ⟨h1, h2, h3⟩
      · rename_i cl restl hidleEq
        have hlen : (s.idle.length : Int) = (restl.length : Int) + 1 := by
          rw [hidleEq]; push_cast [List.length_cons]; ring
        split at h
        · exact absurd h (by simp)
        · unfold poolGetCreate at h
          split at h
          · exact absurd h (by simp)
          · split at h
            · exact absurd h (by simp)
            · cases h
              refine ⟨?_, ?_, ?_⟩ <;> dsimp only <;> omega
  | getCancelledWaiting ok h =>
    unfold poolGet at h
    split at h
    · exact absurd h (by simp)
    · split at h
      · unfold poolGetCreate at h
        split at h
        · cases h
          exact ⟨h1, h2, h3⟩
        · split at h <;> exact absurd h (by simp)
      · rename_i cl restl hidleEq
        have hlen : (s.idle.length : Int) = (restl.length : Int) + 1 := by
          rw [hidleEq]; push_cast [List.length_cons]; ring
        split at h
        · exact absurd h (by simp)
        · unfold poolGetCreate at h
          split at h
          · cases h
            refine ⟨?_, ?_, ?_⟩ <;> dsimp only <;> omega
          · split at h <;> exact absurd h (by simp)
  | put c hc =>
    unfold poolPut
    split
    · refine ⟨?_, ?_, ?_⟩ <;> dsimp only <;> omega
    · split
      · rename_i hclosed hroom
        have hlen : ((s.idle ++ [c]).length : Int) = (s.idle.length : Int) + 1 := by
          push_cast [List.length_append, List.length_cons, List.length_nil]; ring
        refine ⟨?_, ?_, ?_⟩ <;> dsimp only <;> omega
      · rename_i hclosed hfull
        refine ⟨?_, ?_, ?_⟩ <;> dsimp only <;> omega
  | close =>
    unfold poolClose
    split
    · exact ⟨h1, h2, h3⟩
    · have hlen : (([] : List Client).length : Int) = 0 := rfl
      refine ⟨?_, ?_, ?_⟩ <;> dsimp only <;> omega

theorem poolReachable_inv (rm : Int) (s : PoolState) (h : PoolReachable rm s) : PoolInv s := by
  unfold PoolReachable at h
  induction h with
  | refl =>
    refine ⟨le_refl 0, ?_, ?_⟩
    · exact Int.natCast_nonneg _
    · simp [poolInit]
  | tail hsteps hstep ih => exact poolStep_inv _ _ hstep ih

/-! ## Claim C2 -/

/-- C2 counterexample: from `NewPool(MaxSize: 1)`, one successful `Get`
followed by one `Put` reaches a state whose `Stats()` pair is
`(idle, active) = (1, 1)`, so `idle + active` exceeds the configured
maximum 1 — `activeClients` is not decremented when a client is parked in
the idle queue. -/
theorem C2_cex_stats_exceed_max :
    PoolReachable 1 poolCexState ∧
    ¬(((poolStats poolCexState).1 : Int) + (poolStats poolCexState).2 ≤
        (poolCexState.maxSize : Int)) := by
  constructor
  · have st1 : PoolStep (poolInit 1) poolMidState :=
      PoolStep.getReturned true freshClient (by decide)
    have st2 : PoolStep poolMidState poolCexState := by
      have hstep := PoolStep.put (s := poolMidState) freshClient (by decide)
      rwa [show poolPut poolMidState freshClient = poolCexState from by decide] at hstep
    exact Relation.ReflTransGen.tail (Relation.ReflTransGen.single st1) st2
  · decide

/-- C2 amended: in every reachable pool state the number of checked-out
clients plus the queued idle clients is at most the configured maximum, and
each component of the `Stats()` pair is individually at most the maximum;
but the pair's sum may exceed it, because `activeClients` (the second
component) already counts the idle clients. -/
theorem C2_amended_stats_bounds (rm : Int) (s : PoolState) (h : PoolReachable rm s) :
    ((s.checkedOut : Int) + ((poolStats s).1 : Int) ≤ (s.maxSize : Int)) ∧
    (((poolStats s).1 : Int) ≤ (s.maxSize : Int)) ∧
    ((poolStats s).2 ≤ (s.maxSize : Int)) := by
  obtain ⟨h1, h2, h3⟩ := poolReachable_inv rm s h
  unfold poolStats
  dsimp only
  refine ⟨by omega, by omega, by omega⟩

/-- Witness for C2 at the freshly created pool of maximum size 1. -/
theorem C2_amended_stats_bounds_witness :
    (((poolInit 1).checkedOut : Int) + (((poolStats (poolInit 1)).1 : Int)) ≤
        ((poolInit 1).maxSize : Int)) ∧
    ((((poolStats (poolInit 1)).1 : Int)) ≤ ((poolInit 1).maxSize : Int)) ∧
    ((poolStats (poolInit 1)).2 ≤ ((poolInit 1).maxSize : Int)) :=
  C2_amended_stats_bounds 1 (poolInit 1) Relation.ReflTransGen.refl

/-! ## Claim C10 -/

theorem poolGet_returned_open (s : PoolState) (ok : Bool) (c2 : Client) (s2 : PoolState)
    (h : poolGet s ok = .returned c2 s2) : c2.connOpen = true := by
  unfold poolGet poolGetCreate at h
  split at h
  · exact absurd h (by simp)
  · split at h
    · split at h
      · exact absurd h (by simp)
      · split at h
        · cases h
          rfl
        · exact absurd h (by simp)
    · split at h
      · cases h
        assumption
      · split at h
        · exact absurd h (by simp)
        · split at h
          · cases h
            rfl
          · exact absurd h (by simp)

/-- C10: when `Pool.Get` dequeues an idle client whose connection is nil, it
never hands that client (or any client with a nil connection) to the
caller; it decrements the active count and either returns a freshly dialed
client — when the adjusted active count is below the maximum — or blocks
waiting for a released client, in the state with the dead client discarded. -/
theorem C10_dead_idle_client (s : PoolState) (c : Client) (rest : List Client) (ok : Bool)
    (hcl : s.closed = false) (hidle : s.idle = c :: rest) (hdead : c.connOpen = false) :
    (∀ c2 s2, poolGet s ok = .returned c2 s2 → c2.connOpen = true ∧ c2 ≠ c) ∧
    (∀ s2, poolGet s ok = .blocked s2 → s2.active = s.active - 1 ∧ s2.idle = rest) ∧
    (ok = true → s.active - 1 < (s.maxSize : Int) →
      ∃ s2, poolGet s ok = .returned freshClient s2 ∧
        s2.active = s.active ∧ s2.idle = rest) := by
  have hred : poolGet s ok =
      poolGetCreate { s with idle := rest, active := s.active - 1 } ok := by
    unfold poolGet
    rw [if_neg (by simp [hcl]), hidle]
    show (if c.connOpen = true then _ else _) = _
    rw [if_neg (by simp [hdead])]
  refine ⟨?_, ?_, ?_⟩
  · intro c2 s2 h
    have hopen := poolGet_returned_open s ok c2 s2 h
    refine ⟨hopen, ?_⟩
    intro hc2
    rw [hc2, hdead] at hopen
    exact absurd hopen (by simp)
  · intro s2 h
    rw [hred] at h
    unfold poolGetCreate at h
    split at h
    · cases h
      exact ⟨rfl, rfl⟩
    · split at h <;> exact absurd h (by simp)
  · intro hok hlt
    subst hok
    rw [hred]
    unfold poolGetCreate
    split
    · rename_i hcap
      have hcap2 : (s.maxSize : Int) ≤ s.active - 1 := hcap
      exact absurd hcap2 (not_le.mpr hlt)
    · rw [if_pos rfl]
      refine ⟨_, rfl, ?_, rfl⟩
      show s.active - 1 + 1 = s.active
      omega

/-- Witness for C10 at a pool whose sole idle client has a nil connection. -/
theorem C10_dead_idle_client_witness :
    ∃ s2, poolGet cexDeadPool true = .returned freshClient s2 ∧
      s2.active = cexDeadPool.active ∧ s2.idle = [] :=
  (C10_dead_idle_client cexDeadPool ⟨false⟩ [] true rfl rfl rfl).2.2 rfl (by decide)

end GoNut
